import Mathlib

/-!
Verification of the Sass value model and custom-function bridging layer.

The repository ships only TypeScript declaration files
(`src/spec/js-api/legacy/function.d.ts`, `src/js-api-doc/exception.d.ts`,
`src/js-api-doc/value/map.d.ts`); the behaviour of the declared operations
is therefore modelled from the design document, as noted on each definition.
-/

/-- List separators of the value model: comma, space, slash, or "undecided"
(the `null` member of `ListSeparator` in the JS API). -/
inductive Separator : Type where
  | comma
  | space
  | slash
  | undecided
deriving DecidableEq

/-- Modelled from the spec: the closed set of value variants (the abstract
`Value` class of `function.d.ts` reimplemented as a tagged union over the
seven variants, as §9 of the design recommends).  A `number` carries its
magnitude (an exact rational; no floating point is modelled) and its unit
term as numerator and denominator unit lists; a `color` carries RGBA
channels; a `str` carries its text and quoted flag; a `list` carries its
elements, separator and bracket flag; a `map` carries its entries in
insertion order. -/
inductive Value : Type where
  | null : Value
  | boolean : Bool → Value
  | number : Rat → List String → List String → Value
  | color : Rat → Rat → Rat → Rat → Value
  | str : String → Bool → Value
  | list : List Value → Separator → Bool → Value
  | map : List (Value × Value) → Value

/-- Sass's singleton `null` value (`sassNull` in `function.d.ts`). -/
def sassNull : Value := .null

/-- Modelled from the spec: separator comparison used by list equality.
Separators must agree, except that an "undecided" separator matches any
single-element or empty list of any separator. -/
def sepCompat (s1 s2 : Separator) (n : Nat) : Bool :=
  decide (s1 = s2) ||
    (decide (n ≤ 1) && (decide (s1 = Separator.undecided) || decide (s2 = Separator.undecided)))

mutual

/-- Modelled from the spec: `Value.equals` of `function.d.ts` (whose body is
not in the repository), following the per-variant structural equality rules
of §3 of the design: `null` and the two booleans are singletons; numbers
compare magnitude and unit term; colors compare RGBA channels; strings
compare text only, ignoring the quoted flag; lists compare elements in
order, the bracket flag, and separators via `sepCompat`; maps compare as
sets of key/value pairs, ignoring insertion order. -/
def equals : Value → Value → Bool
  | .null, .null => true
  | .boolean a, .boolean b => decide (a = b)
  | .number v1 n1 d1, .number v2 n2 d2 => decide (v1 = v2) && decide (n1 = n2) && decide (d1 = d2)
  | .color r1 g1 b1 a1, .color r2 g2 b2 a2 =>
      decide (r1 = r2) && decide (g1 = g2) && decide (b1 = b2) && decide (a1 = a2)
  | .str s1 _, .str s2 _ => decide (s1 = s2)
  | .list e1 s1 b1, .list e2 s2 b2 => equalsList e1 e2 && decide (b1 = b2) && sepCompat s1 s2 e1.length
  | .map m1, .map m2 => subEntries m1 m2 && subEntries m2 m1
  | _, _ => false
termination_by a b => sizeOf a + sizeOf b

/-- Pointwise `equals` on element lists (requires equal lengths). -/
def equalsList : List Value → List Value → Bool
  | [], [] => true
  | a :: as, b :: bs => equals a b && equalsList as bs
  | _, _ => false
termination_by xs ys => sizeOf xs + sizeOf ys

/-- Whether the pair `(k, v)` matches some entry of `m` up to `equals`. -/
def entryIn : Value → Value → List (Value × Value) → Bool
  | _, _, [] => false
  | k, v, (k2, v2) :: rest => (equals k k2 && equals v v2) || entryIn k v rest
termination_by k v m => sizeOf k + sizeOf v + sizeOf m

/-- Whether every entry of `m1` matches some entry of `m2` up to `equals`. -/
def subEntries : List (Value × Value) → List (Value × Value) → Bool
  | [], _ => true
  | (k, v) :: rest, m2 => entryIn k v m2 && subEntries rest m2
termination_by m1 m2 => sizeOf m1 + sizeOf m2

end

/-- Character-folding hash of a string. -/
def strHash (s : String) : Nat := s.toList.foldl (fun h c => h * 31 + c.toNat) 7

/-- Hash of a rational magnitude. -/
def ratHash (q : Rat) : Nat := q.num.natAbs * 31 + q.den

/-- Hash of a unit list. -/
def unitsHash (us : List String) : Nat := us.foldl (fun h s => h * 31 + strHash s) 5

mutual

/-- Modelled from the spec: `Value.hashCode` of `function.d.ts` (whose body
is not in the repository).  The design constrains it only to agree with
`equals`, so the hash ignores every attribute that `equals` can ignore: a
string's quoted flag and a list's separator do not contribute, and the hash
of a map does not depend on its contents at all, because the
undecided-separator rule lets `equals` relate maps whose entry multisets
(and even entry counts) differ. -/
def hashCode : Value → Nat
  | .null => 0
  | .boolean b => if b then 1 else 2
  | .number q nu du => 3 + 31 * ratHash q + 7 * unitsHash nu + 11 * unitsHash du
  | .color r g b a => 4 + 31 * ratHash r + 37 * ratHash g + 41 * ratHash b + 43 * ratHash a
  | .str s _ => 5 + 31 * strHash s
  | .list es _ br => 6 + (if br then 17 else 19) + 31 * hashList es
  | .map _ => 7
termination_by v => sizeOf v

/-- Ordered hash of an element list. -/
def hashList : List Value → Nat
  | [] => 1
  | v :: vs => hashCode v + 31 * hashList vs + 2
termination_by vs => sizeOf vs

end

/-- Modelled from the spec: `Value.isTruthy` — every value is truthy except
`null` and `false`. -/
def isTruthy : Value → Bool
  | .null => false
  | .boolean b => b
  | _ => true

/-- A map entry viewed as a two-element `(key, value)` list.  The design
fixes comma as the separator of the map's list view but not the separator
of the entry pair lists themselves; space is used here. -/
def pairList (k v : Value) : Value := .list [k, v] .space false

/-- Modelled from the spec: `Value.asList` of `function.d.ts` — a list is
its own elements, a map is its sequence of entry pairs, and every other
value is a single-element list containing itself. -/
def asList : Value → List Value
  | .list es _ _ => es
  | .map m => m.map (fun e => pairList e.1 e.2)
  | v => [v]

/-- Modelled from the spec: `Value.separator` — the separator of the value's
list view: a list's own separator, comma for a map, undecided otherwise. -/
def separator : Value → Separator
  | .list _ s _ => s
  | .map _ => .comma
  | _ => .undecided

/-- Modelled from the spec: `Value.hasBrackets` — only a list can have
brackets. -/
def hasBrackets : Value → Bool
  | .list _ _ b => b
  | _ => false

/-- Modelled from the spec: `Value.tryMap` of `function.d.ts` — the map
contents for a map, the empty mapping for an empty list (an empty list
counts as an empty map), and absent (`none`) for every other value. -/
def tryMap : Value → Option (List (Value × Value))
  | .map m => some m
  | .list [] _ _ => some []
  | _ => none

/-- Modelled from the spec: `Value.realNull` of `function.d.ts` — JavaScript
`null` (here `none`) for `sassNull`, and the value itself otherwise. -/
def realNull : Value → Option Value
  | .null => none
  | v => some v

/-- The two error kinds of the design's error taxonomy. -/
inductive SassError : Type where
  | typeError : String → SassError
  | rangeError : String → SassError

/-- Error-message prefix naming the originating argument, when supplied. -/
def nameMsg : Option String → String
  | none => ""
  | some nm => "$" ++ nm ++ ": "

/-- Modelled from the spec: `Value.sassIndexToListIndex` of `function.d.ts`
(whose body is not in the repository).  Fails with a `TypeError`-kind error
unless the index is a `number` with integral magnitude and an empty unit
term; fails with a `RangeError`-kind error unless `1 ≤ |i| ≤ n` where `n`
is the length of the receiver's list view; otherwise a positive `i` yields
the zero-based position `i - 1` and a negative `i` yields `n + i`. -/
def sassIndexToListIndex (v sassIndex : Value) (name : Option String) : Except SassError Int :=
  match sassIndex with
  | .number q nu du =>
      if nu = [] ∧ du = [] then
        if q.den = 1 then
          if 1 ≤ q.num.natAbs ∧ q.num.natAbs ≤ (asList v).length then
            .ok (if 0 < q.num then q.num - 1 else ((asList v).length : Int) + q.num)
          else
            .error (.rangeError (nameMsg name ++ "Expected index between 1 and " ++
              toString (asList v).length ++ "; got " ++ toString q.num ++ "."))
        else .error (.typeError (nameMsg name ++ "Expected " ++ toString q ++ " to be an integer."))
      else .error (.typeError (nameMsg name ++ "Expected " ++ toString q ++ " to have no units."))
  | _ => .error (.typeError (nameMsg name ++ "Expected a number for the index."))

/-- The legacy mutable value surface of `function.d.ts` (`types` namespace):
`Null`, `Boolean`, `Number` (value and unit term), `String` (value only —
no quoted flag), `Color` (RGBA channels), `List` (indexed slots, which may
be unset, plus an is-comma separator flag — no bracket flag), and `Map`
(parallel indexed key and value slots).  The legacy `Number`'s unit string
is modelled by its parsed unit term, since the repository fixes no concrete
unit-string syntax. -/
inductive LegacyValue : Type where
  | null : LegacyValue
  | boolean : Bool → LegacyValue
  | number : Rat → List String → List String → LegacyValue
  | str : String → LegacyValue
  | color : Rat → Rat → Rat → Rat → LegacyValue
  | list : List (Option LegacyValue) → Bool → LegacyValue
  | map : List (Option LegacyValue) → List (Option LegacyValue) → LegacyValue

mutual

/-- Modelled from the spec: the modern-to-legacy conversion of the Legacy
Bridge (§4.3, not implemented in the repository) — a deep, eager copy into
the legacy representation.  A string's quoted flag and a list's bracket
flag have no legacy counterpart and are dropped; a list's separator
collapses to the is-comma flag. -/
def modernToLegacy : Value → LegacyValue
  | .null => .null
  | .boolean b => .boolean b
  | .number q nu du => .number q nu du
  | .color r g b a => .color r g b a
  | .str s _ => .str s
  | .list es s _ => .list (m2lList es) (decide (s = Separator.comma))
  | .map m => .map (m2lKeys m) (m2lVals m)
termination_by v => sizeOf v

/-- Elementwise modern-to-legacy conversion, filling every slot. -/
def m2lList : List Value → List (Option LegacyValue)
  | [] => []
  | v :: vs => some (modernToLegacy v) :: m2lList vs
termination_by vs => sizeOf vs

/-- Key slots of the legacy copy of a map. -/
def m2lKeys : List (Value × Value) → List (Option LegacyValue)
  | [] => []
  | (k, _) :: rest => some (modernToLegacy k) :: m2lKeys rest
termination_by m => sizeOf m

/-- Value slots of the legacy copy of a map. -/
def m2lVals : List (Value × Value) → List (Option LegacyValue)
  | [] => []
  | (_, v) :: rest => some (modernToLegacy v) :: m2lVals rest
termination_by m => sizeOf m

end

/-- Last-write-wins value for key `k`: later entries of the list whose key
`equals`-matches `k` overwrite the accumulated value. -/
def lastVal (k : Value) : Value → List (Value × Value) → Value
  | acc, [] => acc
  | acc, (k2, v2) :: rest => lastVal k (if equals k2 k then v2 else acc) rest

/-- Drops every entry whose key `equals`-matches `k`. -/
def removeKey (k : Value) (m : List (Value × Value)) : List (Value × Value) :=
  m.filter (fun e => !(equals e.1 k))

/-- Modelled from the spec: duplicate legacy map keys collapse when
converted to a modern map — last write wins, first-seen key order is
preserved (§4.3's documented lossy edge case). -/
def collapse : List (Value × Value) → List (Value × Value)
  | [] => []
  | (k, v) :: rest => (k, lastVal k v rest) :: collapse (removeKey k rest)
termination_by m => m.length
decreasing_by
  simp only [removeKey]
  have h := List.length_filter_le (fun e => !(equals e.1 k)) rest
  simp only [List.length_cons]
  omega

mutual

/-- Modelled from the spec: the legacy-to-modern conversion of the Legacy
Bridge (§4.3, not implemented in the repository).  It re-validates the
legacy object's structural invariants, failing with a `TypeError`-kind
error on a list hole or a map key/value slot-count mismatch; a legacy
string becomes an unquoted modern string; a legacy list becomes a comma- or
space-separated bracketless list; a legacy map's parallel slots are zipped
and duplicate keys collapse last-write-wins. -/
def legacyToModern : LegacyValue → Except SassError Value
  | .null => .ok .null
  | .boolean b => .ok (.boolean b)
  | .number q nu du => .ok (.number q nu du)
  | .color r g b a => .ok (.color r g b a)
  | .str s => .ok (.str s false)
  | .list slots comma =>
      match l2mList slots with
      | .ok es => .ok (.list es (if comma then .comma else .space) false)
      | .error e => .error e
  | .map kslots vslots =>
      if kslots.length = vslots.length then
        match l2mList kslots, l2mList vslots with
        | .ok ks, .ok vs => .ok (.map (collapse (ks.zip vs)))
        | .error e, _ => .error e
        | _, .error e => .error e
      else .error (.typeError "Map key and value slot counts differ.")
termination_by v => sizeOf v

/-- Converts every slot of a legacy list, failing on the first hole. -/
def l2mList : List (Option LegacyValue) → Except SassError (List Value)
  | [] => .ok []
  | none :: _ => .error (.typeError "List contains an unset slot.")
  | some v :: rest =>
      match legacyToModern v, l2mList rest with
      | .ok m, .ok ms => .ok (m :: ms)
      | .error e, _ => .error e
      | _, .error e => .error e
termination_by slots => sizeOf slots

end

/-- The separator that survives a legacy round trip: comma stays comma,
every other separator comes back as space. -/
def normSep (s : Separator) : Separator :=
  if s = Separator.comma then .comma else .space

mutual

/-- The normal form produced by a legacy round trip: quoted flags and
bracket flags are cleared, non-comma separators become space, and map
entries are collapsed. -/
def normv : Value → Value
  | .null => .null
  | .boolean b => .boolean b
  | .number q nu du => .number q nu du
  | .color r g b a => .color r g b a
  | .str s _ => .str s false
  | .list es s _ => .list (normvList es) (normSep s) false
  | .map m => .map (collapse (normvEntries m))
termination_by v => sizeOf v

/-- Elementwise round-trip normal form. -/
def normvList : List Value → List Value
  | [] => []
  | v :: vs => normv v :: normvList vs
termination_by vs => sizeOf vs

/-- Entrywise round-trip normal form. -/
def normvEntries : List (Value × Value) → List (Value × Value)
  | [] => []
  | (k, v) :: rest => (normv k, normv v) :: normvEntries rest
termination_by m => sizeOf m

end

/-- Whether a list of the given length may carry the given separator and
survive a legacy round trip: comma and space always do, slash never does,
and undecided only on lists of at most one element (where list equality
lets it match the space separator the round trip produces). -/
def sepOkB : Separator → Nat → Bool
  | .comma, _ => true
  | .space, _ => true
  | .slash, _ => false
  | .undecided, n => decide (n ≤ 1)

/-- No key of `m` `equals`-matches `k` (tested in the orientation that
`collapse` uses). -/
def keyNotIn (k : Value) : List (Value × Value) → Bool
  | [] => true
  | (k2, _) :: rest => !(equals k2 k) && keyNotIn k rest

/-- The map invariant of the design: keys are pairwise unequal. -/
def keysDistinct : List (Value × Value) → Bool
  | [] => true
  | (k, _) :: rest => keyNotIn k rest && keysDistinct rest

mutual

/-- The well-formed values whose legacy round trip is lossless: every map
satisfies the unique-key invariant, no list is bracketed, and every list
separator passes `sepOkB`. -/
def validv : Value → Bool
  | .null => true
  | .boolean _ => true
  | .number _ _ _ => true
  | .color _ _ _ _ => true
  | .str _ _ => true
  | .list es s b => sepOkB s es.length && !b && validvList es
  | .map m => keysDistinct m && validvEntries m
termination_by v => sizeOf v

/-- Elementwise `validv`. -/
def validvList : List Value → Bool
  | [] => true
  | v :: vs => validv v && validvList vs
termination_by vs => sizeOf vs

/-- Entrywise `validv`. -/
def validvEntries : List (Value × Value) → Bool
  | [] => true
  | (k, v) :: rest => validv k && validv v && validvEntries rest
termination_by m => sizeOf m

end

/-- A source location: offsets, line/column, source snippet, and source
URL, per the `SourceSpan` consumed by `exception.d.ts`. -/
structure SourceSpan where
  startOffset : Nat
  endOffset : Nat
  startLine : Nat
  startColumn : Nat
  text : String
  url : String

/-- Modelled from the spec: the rendering of a span inside
`Exception.message`.  The design leaves the exact format to the
implementation but requires it be deterministic and stable; this one is
`url:line:column: snippet`. -/
def spanRender (sp : SourceSpan) : String :=
  sp.url ++ ":" ++ toString sp.startLine ++ ":" ++ toString sp.startColumn ++ ": " ++ sp.text

/-- The `Exception` of `exception.d.ts`: a message, the machine-oriented
`sassMessage`, the originating span, and the Sass stack trace. -/
structure SassException where
  message : String
  sassMessage : String
  span : SourceSpan
  sassStack : String

/-- Modelled from the spec: one-shot `Exception` construction —
`message` is derived deterministically as
`sassMessage ++ "\n\n" ++ spanRender span ++ "\n\n" ++ sassStack`
(§4.5; the constructor is private in `exception.d.ts` and its body is not
in the repository). -/
def mkException (sassMessage : String) (span : SourceSpan) (sassStack : String) : SassException :=
  { message := sassMessage ++ "\n\n" ++ spanRender span ++ "\n\n" ++ sassStack
    sassMessage := sassMessage
    span := span
    sassStack := sassStack }

/-- Modelled from the spec: `Exception.toString()` returns exactly
`message`. -/
def SassException.toString (e : SassException) : String := e.message

/-- The state of one legacy-asynchronous custom-function call: its
completion callback has either not fired yet, or has fired with a result. -/
inductive CallState : Type where
  | pending : CallState
  | completed : LegacyValue → CallState

/-- Modelled from the spec: the one-shot guard on the completion callback
of a legacy-asynchronous custom function (§4.4, not implemented in the
repository).  Firing the callback in the pending state records the result
and is accepted; any later firing is rejected and leaves the recorded
result untouched. -/
def fireCallback : CallState → LegacyValue → CallState × Bool
  | .pending, r => (.completed r, true)
  | .completed r0, _ => (.completed r0, false)

/-! ## Basic facts about `equals` -/

theorem equalsList_length : ∀ xs ys : List Value, equalsList xs ys = true → xs.length = ys.length
  | [], [], _ => rfl
  | [], _ :: _, h => by simp [equalsList] at h
  | _ :: _, [], h => by simp [equalsList] at h
  | _ :: as, _ :: bs, h => by
      simp [equalsList] at h
      simp [equalsList_length as bs h.2]

theorem sepCompat_refl (s : Separator) (n : Nat) : sepCompat s s n = true := by
  simp [sepCompat]

theorem sepCompat_comm (s1 s2 : Separator) (n : Nat) : sepCompat s1 s2 n = sepCompat s2 s1 n := by
  cases s1 <;> cases s2 <;> simp [sepCompat]

theorem entryIn_cons (k v : Value) (e : Value × Value) (m : List (Value × Value))
    (h : entryIn k v m = true) : entryIn k v (e :: m) = true := by
  cases e with
  | mk k2 v2 => simp [entryIn, h]

theorem subEntries_weaken (m1 : List (Value × Value)) (e : Value × Value)
    (m2 : List (Value × Value)) (h : subEntries m1 m2 = true) :
    subEntries m1 (e :: m2) = true := by
  induction m1 with
  | nil => simp [subEntries]
  | cons hd tl ih =>
      cases hd with
      | mk k v =>
          simp [subEntries] at h
          exact by simp [subEntries, entryIn_cons k v e m2 h.1, ih h.2]

mutual

theorem equals_refl : ∀ a : Value, equals a a = true
  | .null => by simp [equals]
  | .boolean b => by simp [equals]
  | .number v n d => by simp [equals]
  | .color r g b a => by simp [equals]
  | .str s q => by simp [equals]
  | .list es s b => by simp [equals, equalsList_refl es, sepCompat_refl]
  | .map m => by simp [equals, subEntries_refl m]
termination_by a => sizeOf a

theorem equalsList_refl : ∀ xs : List Value, equalsList xs xs = true
  | [] => by simp [equalsList]
  | a :: as => by simp [equalsList, equals_refl a, equalsList_refl as]
termination_by xs => sizeOf xs

theorem subEntries_refl : ∀ m : List (Value × Value), subEntries m m = true
  | [] => by simp [subEntries]
  | (k, v) :: rest => by
      have h1 : entryIn k v ((k, v) :: rest) = true := by
        simp [entryIn, equals_refl k, equals_refl v]
      have h3 : subEntries rest ((k, v) :: rest) = true :=
        subEntries_weaken rest (k, v) rest (subEntries_refl rest)
      simp [subEntries, h1, h3]
termination_by m => sizeOf m

end

mutual

theorem equals_comm : ∀ a b : Value, equals a b = equals b a := by
  intro a b
  cases a <;> cases b <;> simp only [equals] <;> try (simp [eq_comm]; done)
  · -- list vs list
    rename_i e1 s1 b1 e2 s2 b2
    by_cases hlen : e1.length = e2.length
    · rw [equalsList_comm e1 e2, hlen, sepCompat_comm]
      simp [eq_comm]
    · have h1 : equalsList e1 e2 = false := by
        cases hq : equalsList e1 e2
        · rfl
        · exact absurd (equalsList_length e1 e2 hq) hlen
      have h2 : equalsList e2 e1 = false := by
        cases hq : equalsList e2 e1
        · rfl
        · exact absurd (equalsList_length e2 e1 hq).symm hlen
      rw [h1, h2]
      simp
  · -- map vs map
    exact Bool.and_comm _ _
termination_by a b => sizeOf a + sizeOf b

theorem equalsList_comm : ∀ xs ys : List Value, equalsList xs ys = equalsList ys xs
  | [], [] => by simp [equalsList]
  | [], _ :: _ => by simp [equalsList]
  | _ :: _, [] => by simp [equalsList]
  | a :: as, b :: bs => by
      have h1 : equalsList (a :: as) (b :: bs) = (equals a b && equalsList as bs) := by
        simp [equalsList]
      have h2 : equalsList (b :: bs) (a :: as) = (equals b a && equalsList bs as) := by
        simp [equalsList]
      rw [h1, h2, equals_comm a b, equalsList_comm as bs]
termination_by xs ys => sizeOf xs + sizeOf ys

end

theorem equals_symm (a b : Value) (h : equals a b = true) : equals b a = true := by
  rw [← equals_comm]; exact h

mutual

theorem equals_hashCode : ∀ a b : Value, equals a b = true → hashCode a = hashCode b := by
  intro a b h
  cases a <;> cases b <;> simp [equals] at h <;> try (simp_all; done)
  · -- string
    rename_i s1 q1 s2 q2
    subst h
    simp [hashCode]
  · -- list
    rename_i e1 s1 b1 e2 s2 b2
    obtain ⟨⟨h1, h2⟩, _⟩ := h
    subst h2
    simp [hashCode, equalsList_hashList e1 e2 h1]
  · -- map
    simp [hashCode]
termination_by a b => sizeOf a + sizeOf b

theorem equalsList_hashList : ∀ xs ys : List Value, equalsList xs ys = true → hashList xs = hashList ys
  | [], [], _ => rfl
  | [], _ :: _, h => by simp [equalsList] at h
  | _ :: _, [], h => by simp [equalsList] at h
  | a :: as, b :: bs, h => by
      simp [equalsList] at h
      simp [hashList, equals_hashCode a b h.1, equalsList_hashList as bs h.2]
termination_by xs ys => sizeOf xs + sizeOf ys

end

/-! ## Claims C2, C6, C7: equality and hashing -/

/-- C2 counterexample: `equals` as the design defines it is not transitive.
The undecided-separator rule makes the single-element undecided list equal
to both the comma- and the space-separated single-element list, which are
not equal to each other. -/
theorem claimC2_equals_not_transitive :
    equals (.list [sassNull] .comma false) (.list [sassNull] .undecided false) = true ∧
    equals (.list [sassNull] .undecided false) (.list [sassNull] .space false) = true ∧
    equals (.list [sassNull] .comma false) (.list [sassNull] .space false) = false := by
  refine ⟨?_, ?_, ?_⟩ <;> simp [equals, equalsList, sepCompat, sassNull]

/-- C2 amended: for all values `a`, `b`, `equals` agrees with `hashCode`
(`a.equals(b)` implies `a.hashCode() = b.hashCode()`) and is reflexive and
symmetric; it is not transitive (see the counterexample). -/
theorem claimC2_equals_hash_refl_symm (a b : Value) :
    (equals a b = true → hashCode a = hashCode b) ∧
    equals a a = true ∧
    (equals a b = true → equals b a = true) :=
  ⟨equals_hashCode a b, equals_refl a, equals_symm a b⟩

/-- C2 witness: the amended theorem applied to the quoted and unquoted
string `"a"`. -/
theorem claimC2_equals_hash_refl_symm_witness :
    hashCode (.str "a" true) = hashCode (.str "a" false) ∧
    equals (.str "a" false) (.str "a" true) = true := by
  have h := claimC2_equals_hash_refl_symm (Value.str "a" true) (Value.str "a" false)
  have he : equals (Value.str "a" true) (Value.str "a" false) = true := by simp [equals]
  exact ⟨h.1 he, h.2.2 he⟩

/-- C6: map equality ignores insertion order — the two-entry map equals its
reversal — while list equality does not: a list of two non-equal elements
is not equal to the reversed list. -/
theorem claimC6_map_order_insensitive_list_order_sensitive (k1 v1 k2 v2 : Value) :
    equals (.map [(k1, v1), (k2, v2)]) (.map [(k2, v2), (k1, v1)]) = true ∧
    (∀ (a b : Value) (s : Separator) (br : Bool), equals a b = false →
      equals (.list [a, b] s br) (.list [b, a] s br) = false) := by
  constructor
  · simp [equals, subEntries, entryIn, equals_refl]
  · intro a b s br h
    simp [equals, equalsList, h]

/-- C6 witness: concrete two-entry maps in both orders, and a concrete
two-element list against its reversal. -/
theorem claimC6_witness :
    equals (.map [(sassNull, .boolean true), (.str "k" false, .boolean false)])
      (.map [(.str "k" false, .boolean false), (sassNull, .boolean true)]) = true ∧
    equals (.list [sassNull, .boolean true] .comma false)
      (.list [.boolean true, sassNull] .comma false) = false := by
  have h := claimC6_map_order_insensitive_list_order_sensitive
    sassNull (Value.boolean true) (Value.str "k" false) (Value.boolean false)
  exact ⟨h.1, h.2 sassNull (Value.boolean true) .comma false (by simp [sassNull, equals])⟩

/-- C7: string equality compares the text payload only; the quoted string
equals the unquoted string with the same text. -/
theorem claimC7_string_equality_ignores_quoting (t : String) :
    equals (.str t true) (.str t false) = true := by
  simp [equals]

/-! ## Claims C3, C4: list view and map view -/

/-- C3: `tryMap` yields the map's own entries in insertion order for a map,
the empty mapping for an empty list, and is absent for every other value
(including every non-empty list). -/
theorem claimC3_tryMap_characterization (v : Value) :
    (∀ m, v = .map m → tryMap v = some m) ∧
    (∀ s b, v = .list [] s b → tryMap v = some []) ∧
    ((∀ m, v ≠ .map m) → (∀ s b, v ≠ .list [] s b) → tryMap v = none) := by
  refine ⟨?_, ?_, ?_⟩
  · intro m hm; subst hm; rfl
  · intro s b hl; subst hl; rfl
  · intro hm hl
    cases v with
    | map m => exact absurd rfl (hm m)
    | list es s b =>
        cases es with
        | nil => exact absurd rfl (hl s b)
        | cons hd tl => rfl
    | null => rfl
    | boolean _ => rfl
    | number _ _ _ => rfl
    | color _ _ _ _ => rfl
    | str _ _ => rfl

/-- C3 witness: a one-entry map keeps its entries, an empty list is an
empty mapping, a non-empty list is absent. -/
theorem claimC3_tryMap_witness :
    tryMap (.map [(sassNull, .boolean true)]) = some [(sassNull, .boolean true)] ∧
    tryMap (.list [] .comma false) = some [] ∧
    tryMap (.list [sassNull] .comma false) = none := by
  refine ⟨(claimC3_tryMap_characterization _).1 _ rfl,
    (claimC3_tryMap_characterization _).2.1 .comma false rfl,
    (claimC3_tryMap_characterization _).2.2 ?_ ?_⟩
  · intro m h; exact Value.noConfusion h
  · intro s b h
    injection h with h1 _ _
    exact absurd h1 (by simp)

/-- C4 counterexample: the list view of an empty list is empty, so
`asList` is not a non-empty sequence for every value. -/
theorem claimC4_asList_can_be_empty : asList (.list [] .comma false) = [] := rfl

/-- C4 amended: for every value that is neither a list nor a map, the list
view is the single-element sequence containing the value itself, with
separator undecided and brackets false — in particular it is non-empty;
for an empty list (or empty map) the list view is empty, so the
non-emptiness clause does not extend to every value. -/
theorem claimC4_scalar_asList (v : Value)
    (hl : ∀ es s b, v ≠ .list es s b) (hm : ∀ m, v ≠ .map m) :
    asList v = [v] ∧ separator v = .undecided ∧ hasBrackets v = false ∧ asList v ≠ [] := by
  cases v with
  | list es s b => exact absurd rfl (hl es s b)
  | map m => exact absurd rfl (hm m)
  | null => refine ⟨rfl, rfl, rfl, by simp [asList]⟩
  | boolean _ => refine ⟨rfl, rfl, rfl, by simp [asList]⟩
  | number _ _ _ => refine ⟨rfl, rfl, rfl, by simp [asList]⟩
  | color _ _ _ _ => refine ⟨rfl, rfl, rfl, by simp [asList]⟩
  | str _ _ => refine ⟨rfl, rfl, rfl, by simp [asList]⟩

/-- C4 witness: the scalar list-view theorem applied to `true`. -/
theorem claimC4_scalar_asList_witness :
    asList (.boolean true) = [.boolean true] ∧ separator (.boolean true) = .undecided ∧
    hasBrackets (.boolean true) = false ∧ asList (.boolean true) ≠ [] :=
  claimC4_scalar_asList (Value.boolean true)
    (fun _ _ _ h => Value.noConfusion h) (fun _ h => Value.noConfusion h)

/-! ## Claim C1: Sass index conversion -/

/-- C1: `sassIndexToListIndex` fails with a `TypeError`-kind error unless
the index is a number with integral magnitude and an empty unit term; with
`n` the length of the receiver's list view it fails with a
`RangeError`-kind error unless `1 ≤ |i| ≤ n` (zero and out-of-range both
fail); otherwise a positive integer `i` yields the zero-based position
`i - 1` and a negative integer `i` yields `n + i`. -/
theorem claimC1_sassIndexToListIndex (v idx : Value) (name : Option String) :
    ((∀ q nu du, idx ≠ .number q nu du) →
        ∃ m, sassIndexToListIndex v idx name = .error (.typeError m)) ∧
    (∀ q nu du, idx = .number q nu du → ¬(nu = [] ∧ du = [] ∧ q.den = 1) →
        ∃ m, sassIndexToListIndex v idx name = .error (.typeError m)) ∧
    (∀ q, idx = .number q [] [] → q.den = 1 →
        (q.num = 0 ∨ (asList v).length < q.num.natAbs) →
        ∃ m, sassIndexToListIndex v idx name = .error (.rangeError m)) ∧
    (∀ q, idx = .number q [] [] → q.den = 1 →
        1 ≤ q.num.natAbs → q.num.natAbs ≤ (asList v).length →
        sassIndexToListIndex v idx name =
          .ok (if 0 < q.num then q.num - 1 else ((asList v).length : Int) + q.num)) := by
  refine ⟨?_, ?_, ?_, ?_⟩
  · intro h
    cases idx with
    | number q nu du => exact absurd rfl (h q nu du)
    | null => exact ⟨_, rfl⟩
    | boolean _ => exact ⟨_, rfl⟩
    | color _ _ _ _ => exact ⟨_, rfl⟩
    | str _ _ => exact ⟨_, rfl⟩
    | list _ _ _ => exact ⟨_, rfl⟩
    | map _ => exact ⟨_, rfl⟩
  · intro q nu du he hbad
    subst he
    simp only [sassIndexToListIndex]
    split_ifs with h1 h2 h3
    · exact absurd ⟨h1.1, h1.2, h2⟩ hbad
    · exact absurd ⟨h1.1, h1.2, h2⟩ hbad
    · exact ⟨_, rfl⟩
    · exact ⟨_, rfl⟩
  · intro q he hden hout
    subst he
    simp only [sassIndexToListIndex]
    rw [if_pos (⟨trivial, trivial⟩ : True ∧ True)]
    rw [if_pos hden]
    rw [if_neg (by omega : ¬(1 ≤ q.num.natAbs ∧ q.num.natAbs ≤ (asList v).length))]
    exact ⟨_, rfl⟩
  · intro q he hden hlo hhi
    subst he
    simp only [sassIndexToListIndex]
    rw [if_pos (⟨trivial, trivial⟩ : True ∧ True)]
    rw [if_pos hden]
    rw [if_pos ⟨hlo, hhi⟩]

/-- C1 witness: on a three-element list, Sass index `-1` converts to
zero-based index `2`, Sass index `3` converts to `2`, and Sass index `0`
is a `RangeError`-kind failure. -/
theorem claimC1_sassIndexToListIndex_witness :
    sassIndexToListIndex (.list [sassNull, .boolean true, .boolean false] .comma false)
      (.number (-1) [] []) none = .ok 2 ∧
    sassIndexToListIndex (.list [sassNull, .boolean true, .boolean false] .comma false)
      (.number 3 [] []) none = .ok 2 ∧
    ∃ m, sassIndexToListIndex (.list [sassNull, .boolean true, .boolean false] .comma false)
      (.number 0 [] []) none = .error (.rangeError m) := by
  refine ⟨?_, ?_, ?_⟩
  · have h := (claimC1_sassIndexToListIndex
      (.list [sassNull, .boolean true, .boolean false] .comma false)
      (.number (-1) [] []) none).2.2.2 (-1) rfl (by decide) (by decide) (by simp [asList])
    simpa [asList] using h
  · have h := (claimC1_sassIndexToListIndex
      (.list [sassNull, .boolean true, .boolean false] .comma false)
      (.number 3 [] []) none).2.2.2 3 rfl (by decide) (by decide) (by simp [asList])
    simpa [asList] using h
  · exact (claimC1_sassIndexToListIndex
      (.list [sassNull, .boolean true, .boolean false] .comma false)
      (.number 0 [] []) none).2.2.1 0 rfl (by decide) (Or.inl (by decide))

/-! ## Claim C10: realNull -/

/-- C10: `realNull` returns JavaScript's `null` (here `none`) exactly when
the value is the `null` singleton `sassNull`, and returns the value itself
for every other variant. -/
theorem claimC10_realNull_characterization (v : Value) :
    (v = sassNull → realNull v = none) ∧ (v ≠ sassNull → realNull v = some v) := by
  cases v <;> simp [sassNull, realNull]

/-- C10 witness: `realNull` of `sassNull` is `none`; `realNull` of `false`
is the value itself. -/
theorem claimC10_realNull_witness :
    realNull sassNull = none ∧ realNull (.boolean false) = some (.boolean false) := by
  refine ⟨(claimC10_realNull_characterization sassNull).1 rfl,
    (claimC10_realNull_characterization (Value.boolean false)).2 ?_⟩
  intro h
  exact Value.noConfusion h

/-! ## Claim C8: exception construction -/

/-- C8: an exception's `message` is the deterministic composition
`sassMessage ++ "\n\n" ++ spanRender span ++ "\n\n" ++ sassStack`,
`toString` returns exactly `message`, and the one-shot construction fixes
every field (the embedding is pure data, so fields cannot change after
construction). -/
theorem claimC8_exception_message (sm : String) (sp : SourceSpan) (st : String) :
    (mkException sm sp st).message = sm ++ "\n\n" ++ spanRender sp ++ "\n\n" ++ st ∧
    (mkException sm sp st).toString = (mkException sm sp st).message ∧
    (mkException sm sp st).sassMessage = sm ∧
    (mkException sm sp st).span = sp ∧
    (mkException sm sp st).sassStack = st :=
  ⟨rfl, rfl, rfl, rfl, rfl⟩

/-! ## Claim C9: one-shot completion callback -/

/-- C9: the completion callback of a legacy-asynchronous call is acted on
at most once — the first invocation is accepted and records its result;
a second invocation is rejected and leaves the recorded result untouched,
so it is never applied a second time to the suspended evaluation. -/
theorem claimC9_callback_single_shot (r1 r2 : LegacyValue) :
    fireCallback .pending r1 = (.completed r1, true) ∧
    fireCallback (fireCallback .pending r1).1 r2 = ((fireCallback .pending r1).1, false) :=
  ⟨rfl, rfl⟩

/-! ## Legacy round trip: evaluation to normal form -/

theorem m2l_keys_vals_length (m : List (Value × Value)) :
    (m2lKeys m).length = (m2lVals m).length := by
  induction m with
  | nil => simp [m2lKeys, m2lVals]
  | cons e rest ih =>
      cases e with
      | mk k v => simp [m2lKeys, m2lVals, ih]

theorem normvList_length (l : List Value) : (normvList l).length = l.length := by
  induction l with
  | nil => simp [normvList]
  | cons v vs ih => simp [normvList, ih]

mutual

theorem rt_ok : ∀ v : Value, legacyToModern (modernToLegacy v) = .ok (normv v)
  | .null => by simp [modernToLegacy, legacyToModern, normv]
  | .boolean b => by simp [modernToLegacy, legacyToModern, normv]
  | .number q nu du => by simp [modernToLegacy, legacyToModern, normv]
  | .color r g b a => by simp [modernToLegacy, legacyToModern, normv]
  | .str s q => by simp [modernToLegacy, legacyToModern, normv]
  | .list es s b => by
      simp only [modernToLegacy, legacyToModern, rt_ok_list es, normv]
      congr 1
      simp [normSep]
  | .map m => by
      simp only [modernToLegacy, legacyToModern]
      rw [if_pos (m2l_keys_vals_length m)]
      rw [rt_ok_keys m, rt_ok_vals m]
      simp [normv, List.zip_map']
termination_by v => sizeOf v

theorem rt_ok_list : ∀ es : List Value, l2mList (m2lList es) = .ok (normvList es)
  | [] => by simp [m2lList, l2mList, normvList]
  | v :: vs => by
      simp only [m2lList, l2mList, rt_ok v, rt_ok_list vs, normvList]
termination_by es => sizeOf es

theorem rt_ok_keys : ∀ m : List (Value × Value),
    l2mList (m2lKeys m) = .ok ((normvEntries m).map Prod.fst)
  | [] => by simp [m2lKeys, l2mList, normvEntries]
  | (k, v) :: rest => by
      simp only [m2lKeys, l2mList, rt_ok k, rt_ok_keys rest, normvEntries, List.map_cons]
termination_by m => sizeOf m

theorem rt_ok_vals : ∀ m : List (Value × Value),
    l2mList (m2lVals m) = .ok ((normvEntries m).map Prod.snd)
  | [] => by simp [m2lVals, l2mList, normvEntries]
  | (k, v) :: rest => by
      simp only [m2lVals, l2mList, rt_ok v, rt_ok_vals rest, normvEntries, List.map_cons]
termination_by m => sizeOf m

end

/-! ## Collapse is the identity on maps with pairwise-unequal keys -/

theorem lastVal_of_notIn (k : Value) : ∀ (acc : Value) (rest : List (Value × Value)),
    keyNotIn k rest = true → lastVal k acc rest = acc
  | acc, [], _ => by simp [lastVal]
  | acc, (k2, v2) :: rest, h => by
      simp [keyNotIn] at h
      rw [lastVal, if_neg (by simp [h.1]), lastVal_of_notIn k acc rest h.2]

theorem removeKey_of_notIn (k : Value) : ∀ rest : List (Value × Value),
    keyNotIn k rest = true → removeKey k rest = rest
  | [], _ => by simp [removeKey]
  | (k2, v2) :: rest, h => by
      simp [keyNotIn] at h
      have hr := removeKey_of_notIn k rest h.2
      simp only [removeKey, List.filter] at hr ⊢
      simp [h.1, hr]

theorem collapse_eq_self : ∀ m : List (Value × Value),
    keysDistinct m = true → collapse m = m := by
  intro m
  induction m with
  | nil => intro _; simp [collapse]
  | cons e rest ih =>
      intro h
      cases e with
      | mk k v =>
          simp [keysDistinct] at h
          rw [collapse, lastVal_of_notIn k v rest h.1, removeKey_of_notIn k rest h.1, ih h.2]

/-! ## Separator lemmas for the round trip -/

theorem sepCompat_reflect (s1 s2 : Separator) (n : Nat)
    (h1 : sepOkB s1 n = true) (h2 : sepOkB s2 n = true)
    (h : sepCompat (normSep s1) (normSep s2) n = true) : sepCompat s1 s2 n = true := by
  cases s1 <;> cases s2 <;> simp_all [sepOkB, normSep, sepCompat]

theorem sepCompat_norm (s : Separator) (n : Nat) (h : sepOkB s n = true) :
    sepCompat (normSep s) s n = true := by
  cases s <;> simp_all [sepOkB, normSep, sepCompat]

/-! ## Reflection: the round-trip normal form does not conflate valid values -/

mutual

theorem normv_reflect : ∀ v1 v2 : Value, validv v1 = true → validv v2 = true →
    equals (normv v1) (normv v2) = true → equals v1 v2 = true := by
  intro v1 v2 hv1 hv2 h
  cases v1 <;> cases v2 <;> simp only [normv] at h <;>
    try (simp [equals] at h ⊢) <;> try (simp_all; done)
  · -- list vs list
    rename_i e1 s1 b1 e2 s2 b2
    obtain ⟨hL, hs⟩ := h
    simp only [validv, Bool.and_eq_true, Bool.not_eq_true'] at hv1 hv2
    obtain ⟨⟨hsep1, hb1⟩, hvl1⟩ := hv1
    obtain ⟨⟨hsep2, hb2⟩, hvl2⟩ := hv2
    have hlen1 := normvList_length e1
    have hlen2 := normvList_length e2
    have hlen : e1.length = e2.length := by
      have hq := equalsList_length _ _ hL
      omega
    refine ⟨⟨normvList_reflect e1 e2 hvl1 hvl2 hL, hb1.trans hb2.symm⟩, ?_⟩
    apply sepCompat_reflect s1 s2 e1.length hsep1
    · rw [hlen]; exact hsep2
    · rw [← hlen1]
      exact hs
  · -- map vs map
    rename_i m1 m2
    simp only [validv, Bool.and_eq_true] at hv1 hv2
    obtain ⟨hd1, hve1⟩ := hv1
    obtain ⟨hd2, hve2⟩ := hv2
    rw [collapse_eq_self _ (normv_keysDistinct m1 hve1 hd1),
        collapse_eq_self _ (normv_keysDistinct m2 hve2 hd2)] at h
    exact ⟨normvEntries_sub_reflect m1 m2 hve1 hve2 h.1,
           normvEntries_sub_reflect m2 m1 hve2 hve1 h.2⟩
termination_by v1 v2 => sizeOf v1 + sizeOf v2

theorem normvList_reflect : ∀ l1 l2 : List Value, validvList l1 = true → validvList l2 = true →
    equalsList (normvList l1) (normvList l2) = true → equalsList l1 l2 = true
  | [], [], _, _, _ => by simp [equalsList]
  | [], _ :: _, _, _, h => by simp [normvList, equalsList] at h
  | _ :: _, [], _, _, h => by simp [normvList, equalsList] at h
  | a :: as, b :: bs, hv1, hv2, h => by
      simp only [normvList, equalsList, Bool.and_eq_true] at h ⊢
      simp only [validvList, Bool.and_eq_true] at hv1 hv2
      exact ⟨normv_reflect a b hv1.1 hv2.1 h.1, normvList_reflect as bs hv1.2 hv2.2 h.2⟩
termination_by l1 l2 => sizeOf l1 + sizeOf l2

theorem normvEntries_sub_reflect : ∀ m1 m2 : List (Value × Value),
    validvEntries m1 = true → validvEntries m2 = true →
    subEntries (normvEntries m1) (normvEntries m2) = true → subEntries m1 m2 = true
  | [], _, _, _, _ => by simp [subEntries]
  | (k, v) :: rest, m2, hv1, hv2, h => by
      simp only [normvEntries, subEntries, Bool.and_eq_true] at h ⊢
      simp only [validvEntries, Bool.and_eq_true] at hv1
      exact ⟨normvEntries_entryIn_reflect k v m2 hv1.1.1 hv1.1.2 hv2 h.1,
             normvEntries_sub_reflect rest m2 hv1.2 hv2 h.2⟩
termination_by m1 m2 => sizeOf m1 + sizeOf m2

theorem normvEntries_entryIn_reflect : ∀ (k v : Value) (m2 : List (Value × Value)),
    validv k = true → validv v = true → validvEntries m2 = true →
    entryIn (normv k) (normv v) (normvEntries m2) = true → entryIn k v m2 = true
  | k, v, [], _, _, _, h => by simp [normvEntries, entryIn] at h
  | k, v, (k2, v2) :: rest, hk, hv, hm, h => by
      simp only [normvEntries, entryIn, Bool.or_eq_true, Bool.and_eq_true] at h ⊢
      simp only [validvEntries, Bool.and_eq_true] at hm
      rcases h with ⟨h1, h2⟩ | h3
      · exact Or.inl ⟨normv_reflect k k2 hk hm.1.1 h1, normv_reflect v v2 hv hm.1.2 h2⟩
      · exact Or.inr (normvEntries_entryIn_reflect k v rest hk hv hm.2 h3)
termination_by k v m2 => sizeOf k + sizeOf v + sizeOf m2

theorem normv_keyNotIn : ∀ (k : Value) (m : List (Value × Value)),
    validv k = true → validvEntries m = true →
    keyNotIn k m = true → keyNotIn (normv k) (normvEntries m) = true
  | k, [], _, _, _ => by simp [normvEntries, keyNotIn]
  | k, (k2, v2) :: rest, hk, hm, h => by
      simp only [keyNotIn, Bool.and_eq_true, Bool.not_eq_true'] at h
      simp only [validvEntries, Bool.and_eq_true] at hm
      simp only [normvEntries, keyNotIn, Bool.and_eq_true, Bool.not_eq_true']
      refine ⟨?_, normv_keyNotIn k rest hk hm.2 h.2⟩
      cases hq : equals (normv k2) (normv k)
      · rfl
      · exact absurd (normv_reflect k2 k hm.1.1 hk hq) (by simp [h.1])
termination_by k m => sizeOf k + sizeOf m

theorem normv_keysDistinct : ∀ m : List (Value × Value),
    validvEntries m = true → keysDistinct m = true → keysDistinct (normvEntries m) = true
  | [], _, _ => by simp [normvEntries, keysDistinct]
  | (k, v) :: rest, hm, hd => by
      simp only [normvEntries, keysDistinct, Bool.and_eq_true] at hd ⊢
      simp only [validvEntries, Bool.and_eq_true] at hm
      exact ⟨normv_keyNotIn k rest hm.1.1 hm.2 hd.1, normv_keysDistinct rest hm.2 hd.2⟩
termination_by m => sizeOf m

end

/-! ## The round-trip normal form is equal to the original valid value -/

mutual

theorem normv_equals : ∀ v : Value, validv v = true → equals (normv v) v = true
  | .null, _ => by simp [normv, equals]
  | .boolean b, _ => by simp [normv, equals]
  | .number q nu du, _ => by simp [normv, equals]
  | .color r g b a, _ => by simp [normv, equals]
  | .str s q, _ => by simp [normv, equals]
  | .list es s b, hv => by
      simp only [validv, Bool.and_eq_true, Bool.not_eq_true'] at hv
      obtain ⟨⟨hsep, hb⟩, hvl⟩ := hv
      subst hb
      simp only [normv, equals, Bool.and_eq_true, decide_eq_true_eq]
      refine ⟨⟨normvList_equals es hvl, trivial⟩, ?_⟩
      rw [normvList_length es]
      exact sepCompat_norm s es.length hsep
  | .map m, hv => by
      simp only [validv, Bool.and_eq_true] at hv
      obtain ⟨hd, hve⟩ := hv
      simp only [normv]
      rw [collapse_eq_self _ (normv_keysDistinct m hve hd)]
      simp only [equals, Bool.and_eq_true]
      exact ⟨normvEntries_subL m hve, normvEntries_subR m hve⟩
termination_by v => sizeOf v

theorem normvList_equals : ∀ l : List Value, validvList l = true →
    equalsList (normvList l) l = true
  | [], _ => by simp [normvList, equalsList]
  | v :: vs, hv => by
      simp only [validvList, Bool.and_eq_true] at hv
      simp only [normvList, equalsList, Bool.and_eq_true]
      exact ⟨normv_equals v hv.1, normvList_equals vs hv.2⟩
termination_by l => sizeOf l

theorem normvEntries_subL : ∀ m : List (Value × Value), validvEntries m = true →
    subEntries (normvEntries m) m = true
  | [], _ => by simp [normvEntries, subEntries]
  | (k, v) :: rest, hv => by
      simp only [validvEntries, Bool.and_eq_true] at hv
      simp only [normvEntries, subEntries, Bool.and_eq_true]
      constructor
      · simp only [entryIn, Bool.or_eq_true, Bool.and_eq_true]
        exact Or.inl ⟨normv_equals k hv.1.1, normv_equals v hv.1.2⟩
      · exact subEntries_weaken _ (k, v) rest (normvEntries_subL rest hv.2)
termination_by m => sizeOf m

theorem normvEntries_subR : ∀ m : List (Value × Value), validvEntries m = true →
    subEntries m (normvEntries m) = true
  | [], _ => by simp [subEntries]
  | (k, v) :: rest, hv => by
      simp only [validvEntries, Bool.and_eq_true] at hv
      simp only [normvEntries, subEntries, Bool.and_eq_true]
      constructor
      · simp only [entryIn, Bool.or_eq_true, Bool.and_eq_true]
        exact Or.inl ⟨equals_symm _ _ (normv_equals k hv.1.1),
                      equals_symm _ _ (normv_equals v hv.1.2)⟩
      · exact subEntries_weaken _ (normv k, normv v) (normvEntries rest)
          (normvEntries_subR rest hv.2)
termination_by m => sizeOf m

end

/-! ## Claim C5: the legacy round trip -/

/-- C5 counterexample: three modern values whose legacy round trip is not
`equals` to the original.  The legacy list surface carries only an is-comma
separator flag and no bracket flag, so a slash-separated list comes back
space-separated, a bracketed list comes back bracketless, and an undecided
list of two elements comes back space-separated (which the
undecided-separator rule only forgives for lists of at most one element). -/
theorem claimC5_roundtrip_counterexample :
    (legacyToModern (modernToLegacy (.list [sassNull] .slash false)) =
        .ok (.list [sassNull] .space false) ∧
      equals (.list [sassNull] .space false) (.list [sassNull] .slash false) = false) ∧
    (legacyToModern (modernToLegacy (.list [sassNull] .space true)) =
        .ok (.list [sassNull] .space false) ∧
      equals (.list [sassNull] .space false) (.list [sassNull] .space true) = false) ∧
    (legacyToModern (modernToLegacy (.list [sassNull, sassNull] .undecided false)) =
        .ok (.list [sassNull, sassNull] .space false) ∧
      equals (.list [sassNull, sassNull] .space false)
        (.list [sassNull, sassNull] .undecided false) = false) := by
  refine ⟨⟨?_, ?_⟩, ⟨?_, ?_⟩, ⟨?_, ?_⟩⟩
  · simp [modernToLegacy, m2lList, legacyToModern, l2mList, sassNull]
  · simp [equals, equalsList, sepCompat, sassNull]
  · simp [modernToLegacy, m2lList, legacyToModern, l2mList, sassNull]
  · simp [equals, equalsList, sepCompat, sassNull]
  · simp [modernToLegacy, m2lList, legacyToModern, l2mList, sassNull]
  · simp [equals, equalsList, sepCompat, sassNull]

/-- C5 amended: for every well-formed modern value `v` (the seven legacy
variants; maps satisfy the unique-key invariant) in which no list is
bracketed, none is slash-separated, and none is undecided-separated with
two or more elements, the legacy round trip succeeds and yields a value
`equals` to `v`. -/
theorem claimC5_roundtrip_on_valid (v : Value) (hv : validv v = true) :
    ∃ w, legacyToModern (modernToLegacy v) = .ok w ∧ equals w v = true :=
  ⟨normv v, rt_ok v, normv_equals v hv⟩

/-- C5 witness: the amended round trip applied to a quoted string, whose
round trip drops the quoted flag that `equals` ignores. -/
theorem claimC5_roundtrip_on_valid_witness :
    ∃ w, legacyToModern (modernToLegacy (.str "hi" true)) = .ok w ∧
      equals w (.str "hi" true) = true :=
  claimC5_roundtrip_on_valid (Value.str "hi" true) (by simp [validv])
